import Mathlib

/-!
Verification of the Rule Normalization & Aggregation Engine of the
ProxyAssetsHub repository.

The Python sources under `src/core/rule/` are shallowly embedded here.
Python strings are modelled as lists of Unicode code points (`List Nat`);
the Python string operations used by the code (`strip`, `split`, `lower`,
`upper`, `startswith`, membership tests) are reproduced on that
representation.  All embedded functions are executable.
-/

/-- A Python string, as its list of Unicode code points. -/
abbrev PyStr := List Nat

/-- Code-point list of a Lean string literal (used to write concrete inputs). -/
def pl (s : String) : PyStr := s.data.map Char.toNat

/-- Python `str.isspace` for a single character, restricted to the ASCII
whitespace actually produced by rule lists: space, tab, LF, VT, FF, CR. -/
def pyIsSpace (c : Nat) : Bool :=
  c = 32 || c = 9 || c = 10 || c = 11 || c = 12 || c = 13

/-- Python `str.isdigit` on ASCII. -/
def pyIsDigit (c : Nat) : Bool := 48 ≤ c && c ≤ 57

/-- Python `str.lower` on one character (ASCII case mapping). -/
def pyLowerChar (c : Nat) : Nat := if 65 ≤ c ∧ c ≤ 90 then c + 32 else c

/-- Python `str.upper` on one character (ASCII case mapping). -/
def pyUpperChar (c : Nat) : Nat := if 97 ≤ c ∧ c ≤ 122 then c - 32 else c

/-- Python `str.lower`. -/
def pyLower (s : PyStr) : PyStr := s.map pyLowerChar

/-- Python `str.upper`. -/
def pyUpper (s : PyStr) : PyStr := s.map pyUpperChar

/-- Python `str.strip()`: remove leading and trailing whitespace. -/
def pyStrip (s : PyStr) : PyStr :=
  ((s.dropWhile pyIsSpace).reverse.dropWhile pyIsSpace).reverse

/-- Python `s.split(sep)` for a one-character separator: keeps empty fields. -/
def splitOnChar (sep : Nat) : PyStr → List PyStr
  | [] => [[]]
  | c :: cs =>
    match splitOnChar sep cs with
    | [] => [[]]
    | g :: gs => if c = sep then [] :: g :: gs else (c :: g) :: gs

/-- Python `s.split(sep)[0]`: the text before the first occurrence of `sep`
(the whole string when `sep` is absent). -/
def beforeFirst (sep : Nat) (s : PyStr) : PyStr := s.takeWhile (fun c => c ≠ sep)

/-- The text after the first occurrence of `sep` (empty when `sep` is absent);
models Python `s.split(sep, 1)[1]` when `sep` occurs. -/
def afterFirst (sep : Nat) (s : PyStr) : PyStr := (s.dropWhile (fun c => c ≠ sep)).drop 1

/-- Split at every character satisfying `p`, keeping empty fields. -/
def splitBy (p : Nat → Bool) : PyStr → List PyStr
  | [] => [[]]
  | c :: cs =>
    match splitBy p cs with
    | [] => [[]]
    | g :: gs => if p c then [] :: g :: gs else (c :: g) :: gs

/-- Python `s.split()` (no argument): split on whitespace runs, dropping
empty fields. -/
def splitWs (s : PyStr) : List PyStr := (splitBy pyIsSpace s).filter (fun g => g ≠ [])

/-! ## `core/rule/cleaner_rule.py` -/

/-- `TYPE_MAPPING` of `cleaner_rule.py`: alternate type spellings mapped to the
project-internal canonical names. -/
def TYPE_MAPPING : List (PyStr × PyStr) :=
  [ (pl "HOST", pl "DOMAIN"),
    (pl "HOST-SUFFIX", pl "DOMAIN-SUFFIX"),
    (pl "HOST-WILDCARD", pl "DOMAIN-WILDCARD"),
    (pl "HOST-KEYWORD", pl "DOMAIN-KEYWORD"),
    (pl "IP6-CIDR", pl "IP-CIDR6"),
    (pl "IP-CIDR6", pl "IP-CIDR6"),
    (pl "PROCESS-NAME", pl "USER-AGENT") ]

/-- The type-resolution steps of `_handle_standard_format` (lines 104-115):
upper-case, the `FULL` special case, then the `TYPE_MAPPING` lookup. -/
def resolveType (p0 : PyStr) : PyStr :=
  let raw_type := pyUpper (pyStrip p0)
  let raw_type := if raw_type = pl "FULL" then pl "DOMAIN" else raw_type
  (List.lookup raw_type TYPE_MAPPING).getD raw_type

/-- `_handle_standard_format`: comma-separated `TYPE,value[,...]` lines. -/
def handle_standard_format (line : PyStr) : Option PyStr :=
  match splitOnChar 44 line with
  | p0 :: p1 :: _ =>
    let final_type := resolveType p0
    let value_part := pyLower (pyStrip p1)
    if final_type = [] ∨ value_part = [] then none
    else if final_type = pl "DOMAIN-SET" ∨ final_type = pl "RULE-SET" ∨
        final_type = pl "URL-REGEX" then none
    else some (final_type ++ 44 :: value_part)
  | _ => none

/-- Scene 1 of `_handle_compatibility_format`: Hosts-file lines, recognized
only by the literal prefixes `127.0.0.1` and `0.0.0.0`. -/
def scene_hosts (ll : PyStr) : Option PyStr :=
  if List.isPrefixOf (pl "127.0.0.1") ll || List.isPrefixOf (pl "0.0.0.0") ll then
    let parts := splitWs ll
    if parts.length ≥ 2 then some (pl "DOMAIN," ++ pyStrip (parts.getLastD [])) else none
  else none

/-- Scene 2: AdBlock `||domain^` lines. -/
def scene_adblock (ll : PyStr) : Option PyStr :=
  if List.isPrefixOf (pl "||") ll then
    let content := ll.drop 2
    let content := if content.contains 94 then beforeFirst 94 content else content
    let content := if content.contains 36 then beforeFirst 36 content else content
    let content := pyStrip content
    if content ≠ [] then some (pl "DOMAIN-SUFFIX," ++ content) else none
  else none

/-- Scene 3: dot-prefixed shorthand `.example.com`. -/
def scene_dot (ll : PyStr) : Option PyStr :=
  if List.isPrefixOf (pl ".") ll then
    let content := pyStrip (ll.dropWhile (fun c => c = 46))
    if content ≠ [] then some (pl "DOMAIN-SUFFIX," ++ content) else none
  else none

/-- Scene 4: bare IP / CIDR payloads (digit-initial, charset `0-9./:`). -/
def scene_ip (ll : PyStr) : Option PyStr :=
  match ll with
  | [] => none
  | c :: _ =>
    if pyIsDigit c then
      if ll.all (fun ch => pyIsDigit ch || ch = 46 || ch = 47 || ch = 58) then
        if ll.contains 58 then some (pl "IP-CIDR6," ++ ll)
        else some (pl "IP-CIDR," ++ ll)
      else none
    else none

/-- Scene 5: bare-domain fallback (contains `.`, no `/`, no space). -/
def scene_domain (ll : PyStr) : Option PyStr :=
  if ll.contains 46 && !ll.contains 47 && !ll.contains 32 then
    some (pl "DOMAIN-SUFFIX," ++ ll)
  else none

/-- `_handle_compatibility_format`: the comma-free variants, tried in the
source order; the first scene returning a value wins. -/
def handle_compatibility_format (line : PyStr) : Option PyStr :=
  let ll := pyLower line
  scene_hosts ll <|> scene_adblock ll <|> scene_dot ll <|> scene_ip ll <|> scene_domain ll

/-- `clean_rule_line`: the normalization entry point of `cleaner_rule.py`. -/
def clean_rule_line (line : PyStr) : Option PyStr :=
  if line = [] then none
  else
    let line1 := if line.contains 35 then beforeFirst 35 line else line
    if List.isPrefixOf (pl "!") (pyStrip line1) then none
    else
      let line2 := pyStrip line1
      if line2 = [] then none
      else if List.isPrefixOf (pl "##") line2 || List.isPrefixOf (pl "#@#") line2 then none
      else
        let line3 := if List.isPrefixOf (pl "- ") line2 then pyStrip (line2.drop 2) else line2
        if line3.contains 44 then handle_standard_format line3
        else handle_compatibility_format line3

/-! ## `core/constants.py` (not present under `src/`) -/

/-- Modelled from the spec: `core/constants.py` (imported by
`processor_rule.py` for `RULE_TYPE_PRIORITY` and `DEFAULT_PRIORITY`) is not
among the provided sources.  Per spec section 4.3 step 8, `priority` is a static
table from type to integer rank, lower = higher precedence, domain-exact before
domain-suffix before IP ranges before catch-all types. -/
def RULE_TYPE_PRIORITY : List (PyStr × Nat) :=
  [ (pl "DOMAIN", 1), (pl "DOMAIN-SUFFIX", 2), (pl "DOMAIN-KEYWORD", 3),
    (pl "DOMAIN-WILDCARD", 4),
    (pl "IP-CIDR", 10), (pl "IP-CIDR6", 11), (pl "IP-ASN", 12), (pl "GEOIP", 13),
    (pl "PROCESS-NAME", 20), (pl "USER-AGENT", 21) ]

/-- Modelled from the spec: the fixed low-priority default rank given to
unknown types (spec section 4.3 step 8). -/
def DEFAULT_PRIORITY : Nat := 100

/-! ## `core/rule/processor_rule.py` -/

/-- `get_sort_key` of `processor_rule.py`. -/
def get_sort_key (line : PyStr) : Nat × PyStr :=
  if line.contains 44 then
    let rule_type := pyUpper (pyStrip (beforeFirst 44 line))
    ((List.lookup rule_type RULE_TYPE_PRIORITY).getD DEFAULT_PRIORITY, line)
  else (DEFAULT_PRIORITY, line)

/-- Lexicographic comparison of code-point lists, as Python compares strings. -/
def pstrLe : PyStr → PyStr → Bool
  | [], _ => true
  | _ :: _, [] => false
  | a :: as, b :: bs => if a < b then true else if a = b then pstrLe as bs else false

/-- Comparison of two rules by their Python sort key `(priority, line)`. -/
def keyLe (a b : PyStr) : Bool :=
  let ka := get_sort_key a
  let kb := get_sort_key b
  if ka.1 < kb.1 then true else if ka.1 = kb.1 then pstrLe ka.2 kb.2 else false

/-- The sort relation used by `list.sort(key=get_sort_key)`. -/
def RuleLe (a b : PyStr) : Prop := keyLe a b = true

instance : DecidableRel RuleLe :=
  fun a b => inferInstanceAs (Decidable (keyLe a b = true))

/-- Python's `list.sort(key=get_sort_key)`.  The key is injective (its second
component is the whole line), so any correct comparison sort produces the same
list as Python's stable sort. -/
def sortRules (l : List PyStr) : List PyStr := List.insertionSort RuleLe l

/-- The filter section of a task configuration (`cfg["filters"]`). -/
structure FilterConfig where
  ignored_rules : List PyStr
  exclude_keywords : List PyStr
  include_keywords : List PyStr
  extra_rules : List PyStr
deriving DecidableEq

/-- The statistics dictionary returned by `process_rules`. -/
structure RuleStats where
  source : Nat
  vip : Nat
  invalid : Nat
  dup_vip : Nat
  dup_src : Nat
  filtered : Nat
  total : Nat
deriving DecidableEq

/-- Building a Python `set` of cleaned rules by iterating `clean_rule_line`
over a list (insertion order retained; membership and size agree with the
Python set). -/
def addClean (acc : List PyStr) (item : PyStr) : List PyStr :=
  match clean_rule_line item with
  | some c => if c ∈ acc then acc else acc ++ [c]
  | none => acc

/-- The `ignored_set` / `vip_set` construction of `process_rules` (steps 1-2). -/
def buildCleanSet (items : List PyStr) : List PyStr := items.foldl addClean []

/-- Python's substring test `needle in hay`. -/
def hasSub (needle : PyStr) : PyStr → Bool
  | [] => decide (needle = [])
  | c :: t => List.isPrefixOf needle (c :: t) || hasSub needle t

/-- The filtering check of `process_rules` (step "过滤检查"): ignored-set
membership, then exclude keywords, then include keywords. -/
def isFilteredLine (ignored excl incl : List PyStr) (cl : PyStr) : Bool :=
  if cl ∈ ignored then true
  else
    let line_lower := pyLower cl
    if excl.any (fun kw => hasSub kw line_lower) then true
    else if incl ≠ [] then !(incl.any (fun kw => hasSub kw line_lower))
    else false

/-- The mutable loop state of the main `for line in raw_rules` loop. -/
structure LoopSt where
  common : List PyStr
  invalid : Nat
  dup_vip : Nat
  dup_src : Nat
  filtered : Nat
deriving DecidableEq

/-- One iteration of the main loop of `process_rules` (step 3). -/
def stepLine (vip ignored excl incl : List PyStr) (st : LoopSt) (line : PyStr) : LoopSt :=
  match clean_rule_line line with
  | none => { st with invalid := st.invalid + 1 }
  | some cl =>
    if cl ∈ vip then { st with dup_vip := st.dup_vip + 1 }
    else if cl ∈ st.common then { st with dup_src := st.dup_src + 1 }
    else if isFilteredLine ignored excl incl cl then { st with filtered := st.filtered + 1 }
    else { st with common := st.common ++ [cl] }

/-- `process_rules` of `processor_rule.py`: clean, deduplicate, filter, sort. -/
def process_rules (cfg : FilterConfig) (raw_rules : List PyStr) : List PyStr × RuleStats :=
  let ignored_set := buildCleanSet cfg.ignored_rules
  let exclude_keywords := cfg.exclude_keywords.map pyLower
  let include_keywords := cfg.include_keywords.map pyLower
  let vip_set := buildCleanSet cfg.extra_rules
  let st := raw_rules.foldl (stepLine vip_set ignored_set exclude_keywords include_keywords)
    ⟨[], 0, 0, 0, 0⟩
  let vip_list := sortRules vip_set
  let common_list := sortRules st.common
  let final_result := vip_list ++ common_list
  (final_result,
   { source := raw_rules.length, vip := vip_set.length, invalid := st.invalid,
     dup_vip := st.dup_vip, dup_src := st.dup_src, filtered := st.filtered,
     total := final_result.length })

/-! ## `core/rule/formatter_rule_clash.py` -/

namespace ClashFmt

/-- `TYPE_BUCKETS["DOMAIN"]` of `formatter_rule_clash.py`. -/
def TYPE_BUCKETS_DOMAIN : List PyStr :=
  [pl "DOMAIN", pl "DOMAIN-SUFFIX", pl "DOMAIN-KEYWORD", pl "DOMAIN-WILDCARD"]

/-- `TYPE_BUCKETS["IP"]` of `formatter_rule_clash.py`. -/
def TYPE_BUCKETS_IP : List PyStr :=
  [pl "IP-CIDR", pl "IP-CIDR6", pl "GEOIP", pl "SRC-IP-CIDR", pl "IP-ASN"]

/-- `CLASH_MAPPING` of `formatter_rule_clash.py` (the Python dict literal
repeats the `PROCESS-NAME` key with the same value; the dict holds it once). -/
def CLASH_MAPPING : List (PyStr × PyStr) :=
  [ (pl "DOMAIN", pl "DOMAIN"),
    (pl "DOMAIN-SUFFIX", pl "DOMAIN-SUFFIX"),
    (pl "DOMAIN-KEYWORD", pl "DOMAIN-KEYWORD"),
    (pl "DOMAIN-WILDCARD", pl "DOMAIN-SUFFIX"),
    (pl "IP-CIDR", pl "IP-CIDR"),
    (pl "IP-CIDR6", pl "IP-CIDR6"),
    (pl "GEOIP", pl "GEOIP"),
    (pl "SRC-IP-CIDR", pl "SRC-IP-CIDR"),
    (pl "PROCESS-NAME", pl "PROCESS-NAME"),
    (pl "DST-PORT", pl "DST-PORT"),
    (pl "SRC-PORT", pl "SRC-PORT"),
    (pl "IP-ASN", pl "IP-ASN") ]

/-- The three bucket lists plus their `has_data` flags. -/
structure Buckets where
  domain : List PyStr
  ip : List PyStr
  classical : List PyStr
  hd : Bool
  hi : Bool
  hc : Bool
deriving DecidableEq

/-- One iteration of the `for line in rules` loop of `format_rules`. -/
def stepRule (st : Buckets) (line : PyStr) : Buckets :=
  if line.contains 44 then
    let std_type := pyUpper (pyStrip (beforeFirst 44 line))
    let value := pyStrip (afterFirst 44 line)
    match List.lookup std_type CLASH_MAPPING with
    | none => st
    | some clash_type =>
      let suffix_param :=
        if clash_type = pl "IP-CIDR" ∨ clash_type = pl "IP-CIDR6" then pl ",no-resolve" else []
      let final_line := pl "  - " ++ clash_type ++ 44 :: value ++ suffix_param
      if std_type ∈ TYPE_BUCKETS_DOMAIN then
        { st with domain := st.domain ++ [final_line], hd := true }
      else if std_type ∈ TYPE_BUCKETS_IP then
        { st with ip := st.ip ++ [final_line], hi := true }
      else
        { st with classical := st.classical ++ [final_line], hc := true }
  else st

/-- `format_rules` of `formatter_rule_clash.py`.  The returned Python dict is
modelled as an association list in the dict's insertion order.  The
`policy_tag` parameter is accepted and unused, as in the source. -/
def format_rules (rules : List PyStr) (policy_tag : String)
    (header_lines : List PyStr) : List (String × List PyStr) :=
  let _ := policy_tag
  let common_headers := pl "payload:" :: header_lines.map (fun h => pl "  # " ++ h)
  let st := rules.foldl stepRule ⟨[], [], [], false, false, false⟩
  let entries : List (String × List PyStr × Bool) :=
    [ ("Domain", common_headers ++ st.domain, st.hd),
      ("IP", common_headers ++ st.ip, st.hi),
      ("Classical", common_headers ++ st.classical, st.hc) ]
  (entries.filter
      (fun e => decide (e.1 ∈ ["Domain", "IP", "Classical"]) || e.2.2)).map
    (fun e => (e.1, e.2.1))

end ClashFmt

/-! ## Concrete inputs used by the claims -/

/-- A task configuration whose filter section is empty (the default). -/
def emptyFilters : FilterConfig := ⟨[], [], [], []⟩

/-- The three-line input of the spec's first aggregation scenario. -/
def c1input : List PyStr :=
  [pl "DOMAIN,Example.com", pl "example.com", pl "example.com,Proxy"]

/-! ## Claim C1 -/

/-- C1, counterexample.  On input `["DOMAIN,Example.com", "example.com",
"example.com,Proxy"]` with empty filters, the aggregated output does NOT have
length 1 with stats `invalid = 0, dup_src = 2, total = 1`: the three lines
normalize to three different canonical rules (`DOMAIN,example.com`,
`DOMAIN-SUFFIX,example.com`, `EXAMPLE.COM,proxy`), so nothing is deduplicated. -/
theorem C1_counterexample :
    ¬ ((process_rules emptyFilters c1input).1.length = 1 ∧
       (process_rules emptyFilters c1input).2.invalid = 0 ∧
       (process_rules emptyFilters c1input).2.dup_src = 2 ∧
       (process_rules emptyFilters c1input).2.total = 1) := by
  decide

/-- C1, amended.  The bare line `example.com` reaches the bare-domain fallback
and becomes `DOMAIN-SUFFIX,example.com`, and `example.com,Proxy` is parsed as
explicit type `EXAMPLE.COM` (no supported-set check), so the three raw lines
normalize to three distinct canonical rules; aggregation returns the ordered
list of length 3 with stats `invalid = 0, dup_src = 0, total = 3`. -/
theorem C1_amended :
    process_rules emptyFilters c1input =
      ([pl "DOMAIN,example.com", pl "DOMAIN-SUFFIX,example.com", pl "EXAMPLE.COM,proxy"],
       ⟨3, 0, 0, 0, 0, 0, 3⟩) := by
  decide

/-! ## Claim C2 -/

/-- C2, counterexample.  The explicit payload `FOOBAR,x` has a resolved type
outside the ten supported types, yet the decoder does NOT return void: it
yields the canonical rule `FOOBAR,x` (there is no supported-set check in
`_handle_standard_format`). -/
theorem C2_counterexample :
    clean_rule_line (pl "FOOBAR,x") = some (pl "FOOBAR,x") ∧
    clean_rule_line (pl "FOOBAR,x") ≠ none := by
  decide

/-! ## Claim C3 -/

/-- C3, counterexample.  Normalizing `HOST-SUFFIX,Google.COM.` does NOT yield
`DOMAIN-SUFFIX,google.com`: no trailing dot is stripped anywhere in
`cleaner_rule.py`. -/
theorem C3_counterexample :
    clean_rule_line (pl "HOST-SUFFIX,Google.COM.") ≠ some (pl "DOMAIN-SUFFIX,google.com") := by
  decide

/-- C3, amended.  Canonical values are lower-cased but no trailing dot is
removed: normalizing `HOST-SUFFIX,Google.COM.` yields exactly
`DOMAIN-SUFFIX,google.com.` (case folded, final dot kept). -/
theorem C3_amended :
    clean_rule_line (pl "HOST-SUFFIX,Google.COM.") = some (pl "DOMAIN-SUFFIX,google.com.") := by
  decide

/-! ## Claim C4 -/

/-- C4, counterexample.  The digit-initial payload `10.0.0.1 5.6.7.8` (a
whitespace-separated hosts line not starting with `127.0.0.1` or `0.0.0.0`)
is NOT decoded as `DOMAIN,5.6.7.8`; the inferred decoder rejects it entirely
(the IP character class contains no space, and the hosts branch only fires on
the two literal prefixes). -/
theorem C4_counterexample :
    handle_compatibility_format (pl "10.0.0.1 5.6.7.8") = none := by
  decide

/-! ## Claim C6 -/

/-- C6, counterexample.  `ASN` is not in the inbound synonym table, so
`ASN,x` normalizes to `ASN,x` (not `IP-ASN,x`); and `PROCESS-NAME` is itself
a synonym key mapped to `USER-AGENT`, so `PROCESS-NAME,x` normalizes to
`USER-AGENT,x` (not to itself). -/
theorem C6_counterexample :
    clean_rule_line (pl "ASN,x") ≠ some (pl "IP-ASN,x") ∧
    clean_rule_line (pl "PROCESS-NAME,x") ≠ some (pl "PROCESS-NAME,x") ∧
    clean_rule_line (pl "ASN,x") = some (pl "ASN,x") ∧
    clean_rule_line (pl "PROCESS-NAME,x") = some (pl "USER-AGENT,x") := by
  decide

/-! ## Claim C9 -/

/-- The configuration of the C9 counterexample: one VIP rule, no filters. -/
def c9cfg : FilterConfig := ⟨[], [], [], [pl "DOMAIN,a.com"]⟩

/-- C9, counterexample.  Aggregation is not idempotent on its own output.
With one VIP rule `DOMAIN,a.com` and raw input `["- !a,b"]` (which normalizes
to the canonical rule `!A,b`), the first run returns
`["DOMAIN,a.com", "!A,b"]`; feeding that back in, `!A,b` now starts with `!`
and is discarded as an AdBlock comment, so the second run returns a DIFFERENT
list, and its `dup_vip` counter is 1, not 0. -/
theorem C9_counterexample :
    ¬ ((process_rules c9cfg ((process_rules c9cfg [pl "- !a,b"]).1)).1 =
         (process_rules c9cfg [pl "- !a,b"]).1 ∧
       (process_rules c9cfg ((process_rules c9cfg [pl "- !a,b"]).1)).2.dup_vip = 0 ∧
       (process_rules c9cfg ((process_rules c9cfg [pl "- !a,b"]).1)).2.dup_src = 0 ∧
       (process_rules c9cfg ((process_rules c9cfg [pl "- !a,b"]).1)).2.filtered = 0) := by
  decide

/-! ## Claim C5 -/

/-- C5, counterexample.  Encoding only `["DOMAIN,a.com"]` yields a result that
DOES contain `IP` and `Classical` entries: every bucket is in the mandatory
output list, so empty buckets are emitted as header-only placeholders. -/
theorem C5_counterexample :
    "IP" ∈ (ClashFmt.format_rules [pl "DOMAIN,a.com"] "Default" []).map Prod.fst ∧
    "Classical" ∈ (ClashFmt.format_rules [pl "DOMAIN,a.com"] "Default" []).map Prod.fst ∧
    (ClashFmt.format_rules [pl "DOMAIN,a.com"] "Default" []) =
      [("Domain", [pl "payload:", pl "  - DOMAIN,a.com"]),
       ("IP", [pl "payload:"]),
       ("Classical", [pl "payload:"])] := by
  decide

/-- C5, amended.  The partitioning encoder never omits a bucket: for every
input, the returned mapping has exactly the keys `Domain`, `IP`, `Classical`
in that order; a bucket that received zero eligible rules is still present as
a header-only placeholder. -/
theorem C5_amended (rules : List PyStr) (tag : String) (headers : List PyStr) :
    (ClashFmt.format_rules rules tag headers).map Prod.fst = ["Domain", "IP", "Classical"] := by
  simp [ClashFmt.format_rules]

/-! ## String-operation lemmas -/

/-- `splitOnChar` always returns at least one field. -/
theorem splitOnChar_ne_nil (sep : Nat) (s : PyStr) : splitOnChar sep s ≠ [] := by
  induction s with
  | nil => simp [splitOnChar]
  | cons c cs ih =>
    rw [splitOnChar]
    split
    · next heq => exact absurd heq ih
    · next g gs heq => split <;> simp

/-- Splitting a string without the separator gives the single whole field. -/
theorem splitOnChar_of_not_mem {sep : Nat} {s : PyStr} (h : ¬ sep ∈ s) :
    splitOnChar sep s = [s] := by
  induction s with
  | nil => rfl
  | cons c cs ih =>
    have hc : c ≠ sep := fun he => h (he ▸ List.mem_cons_self c cs)
    have hcs : ¬ sep ∈ cs := fun hm => h (List.mem_cons_of_mem _ hm)
    rw [splitOnChar, ih hcs]
    simp [hc]

/-- Splitting `xs ++ sep :: ys` where `xs` is separator-free isolates `xs`. -/
theorem splitOnChar_append {sep : Nat} {xs ys : PyStr} (h : ¬ sep ∈ xs) :
    splitOnChar sep (xs ++ sep :: ys) = xs :: splitOnChar sep ys := by
  induction xs with
  | nil =>
    rw [List.nil_append, splitOnChar]
    split
    · next heq => exact absurd heq (splitOnChar_ne_nil sep ys)
    · next g gs heq => simp [heq]
  | cons c cs ih =>
    have hc : c ≠ sep := fun he => h (he ▸ List.mem_cons_self c cs)
    have hcs : ¬ sep ∈ cs := fun hm => h (List.mem_cons_of_mem _ hm)
    rw [List.cons_append, splitOnChar, ih hcs]
    simp [hc]

/-- Every field of `splitOnChar` is separator-free. -/
theorem not_mem_of_mem_splitOnChar {sep : Nat} {s : PyStr} {g : PyStr}
    (hg : g ∈ splitOnChar sep s) : ¬ sep ∈ g := by
  induction s generalizing g with
  | nil =>
    simp [splitOnChar] at hg
    simp [hg]
  | cons c cs ih =>
    rw [splitOnChar] at hg
    revert hg
    split
    · next heq => exact absurd heq (splitOnChar_ne_nil sep cs)
    · next g0 gs heq =>
      intro hg
      by_cases hc : c = sep
      · rw [if_pos hc] at hg
        rcases List.mem_cons.1 hg with h1 | h1
        · simp [h1]
        · exact ih (heq ▸ h1)
      · rw [if_neg hc] at hg
        rcases List.mem_cons.1 hg with h1 | h1
        · subst h1
          intro hm
          rcases List.mem_cons.1 hm with he | hm2
          · exact hc he.symm
          · exact ih (heq ▸ List.mem_cons_self g0 gs) hm2
        · exact ih (heq ▸ List.mem_cons_of_mem _ h1)

/-- `strip` is the identity on whitespace-free strings. -/
theorem pyStrip_eq_self {s : PyStr} (h : ∀ c ∈ s, pyIsSpace c = false) : pyStrip s = s := by
  unfold pyStrip
  have h1 : s.dropWhile pyIsSpace = s := by
    cases s with
    | nil => rfl
    | cons a t => rw [List.dropWhile_cons_of_neg (by simp [h a (List.mem_cons_self a t)])]
  rw [h1]
  have h2 : s.reverse.dropWhile pyIsSpace = s.reverse := by
    cases hr : s.reverse with
    | nil => rfl
    | cons a t =>
      have ha : a ∈ s := List.mem_reverse.1 (hr ▸ List.mem_cons_self a t)
      rw [List.dropWhile_cons_of_neg (by simp [h a ha])]
  rw [h2, List.reverse_reverse]

/-- Characters of a stripped string come from the original string. -/
theorem mem_pyStrip {s : PyStr} {a : Nat} (h : a ∈ pyStrip s) : a ∈ s := by
  unfold pyStrip at h
  have h1 := List.mem_reverse.1 h
  have h2 := List.dropWhile_sublist (l := (s.dropWhile pyIsSpace).reverse) (p := pyIsSpace)
  have h3 := h2.mem h1
  have h4 := List.mem_reverse.1 h3
  exact (List.dropWhile_sublist (l := s) (p := pyIsSpace)).mem h4

/-- ASCII upper-casing never produces a lowercase letter. -/
theorem pyUpperChar_not_lower (c : Nat) : ¬ (97 ≤ pyUpperChar c ∧ pyUpperChar c ≤ 122) := by
  unfold pyUpperChar; split <;> omega

/-- ASCII upper-casing only yields a comma from a comma. -/
theorem pyUpperChar_eq_comma {c : Nat} (h : pyUpperChar c = 44) : c = 44 := by
  unfold pyUpperChar at h; split at h <;> omega

/-- ASCII lower-casing only yields a comma from a comma. -/
theorem pyLowerChar_eq_comma {c : Nat} (h : pyLowerChar c = 44) : c = 44 := by
  unfold pyLowerChar at h; split at h <;> omega

/-- Upper-casing a comma-free string is comma-free. -/
theorem not_mem_pyUpper {s : PyStr} (h : ¬ 44 ∈ s) : ¬ 44 ∈ pyUpper s := by
  intro hm
  rcases List.mem_map.1 hm with ⟨c, hc, he⟩
  exact h (pyUpperChar_eq_comma he ▸ hc)

/-- Lower-casing a comma-free string is comma-free. -/
theorem not_mem_pyLower {s : PyStr} (h : ¬ 44 ∈ s) : ¬ 44 ∈ pyLower s := by
  intro hm
  rcases List.mem_map.1 hm with ⟨c, hc, he⟩
  exact h (pyLowerChar_eq_comma he ▸ hc)

/-- The segment before the first comma of `T ++ "," ++ V` is `T`. -/
theorem beforeFirst_append {T V : PyStr} (h : ¬ 44 ∈ T) :
    beforeFirst 44 (T ++ 44 :: V) = T := by
  unfold beforeFirst
  induction T with
  | nil => simp
  | cons a t ih =>
    have ha : a ≠ 44 := fun he => h (he ▸ List.mem_cons_self a t)
    have ht : ¬ 44 ∈ t := fun hm => h (List.mem_cons_of_mem _ hm)
    simp only [List.cons_append, List.takeWhile_cons]
    simp only [ha, ite_false, decide_not]
    simp [ha]
    simpa using ih ht

/-- The segment after the first comma of `T ++ "," ++ V` is `V`. -/
theorem afterFirst_append {T V : PyStr} (h : ¬ 44 ∈ T) :
    afterFirst 44 (T ++ 44 :: V) = V := by
  unfold afterFirst
  induction T with
  | nil => simp
  | cons a t ih =>
    have ha : a ≠ 44 := fun he => h (he ▸ List.mem_cons_self a t)
    have ht : ¬ 44 ∈ t := fun hm => h (List.mem_cons_of_mem _ hm)
    simp only [List.cons_append, List.dropWhile_cons]
    simp [ha]
    simpa using ih ht

/-- A canonical `TYPE,value` pair with comma-free halves has exactly one comma. -/
theorem count_comma_one {T V : PyStr} (hT : ¬ 44 ∈ T) (hV : ¬ 44 ∈ V) :
    List.count 44 (T ++ 44 :: V) = 1 := by
  rw [List.count_append, List.count_cons_self]
  rw [List.count_eq_zero.2 hT, List.count_eq_zero.2 hV]

/-- `contains` agrees with membership (positive direction). -/
theorem contains_eq_true_of {l : PyStr} {a : Nat} (h : a ∈ l) : l.contains a = true :=
  List.elem_iff.2 h

/-- `contains` agrees with membership (negative direction). -/
theorem contains_eq_false_of {l : PyStr} {a : Nat} (h : ¬ a ∈ l) : l.contains a = false := by
  cases hb : l.contains a with
  | false => rfl
  | true => exact absurd (List.elem_iff.1 hb) h

/-- A line that passes every preprocessing test of `clean_rule_line` and
contains a comma is handed to the explicit decoder unchanged. -/
theorem clean_rule_line_to_std {line : PyStr}
    (hne : line ≠ [])
    (hc35 : line.contains 35 = false)
    (hbang : List.isPrefixOf (pl "!") line = false)
    (hsp : pyStrip line = line)
    (hhh : List.isPrefixOf (pl "##") line = false)
    (hat : List.isPrefixOf (pl "#@#") line = false)
    (hdash : List.isPrefixOf (pl "- ") line = false)
    (hc44 : line.contains 44 = true) :
    clean_rule_line line = handle_standard_format line := by
  unfold clean_rule_line
  rw [if_neg hne]
  simp only [hc35, Bool.false_eq_true, if_false, hsp, hbang, hhh, hat, Bool.or_self, hdash,
    hc44, if_true]
  rw [if_neg hne]

/-- On `T ++ "," ++ v` with comma-free halves, the explicit decoder keeps any
non-empty resolved type that is not one of the three blacklisted ones — no
membership test against the ten supported types happens. -/
theorem handle_standard_append {T v : PyStr} (hT : ¬ 44 ∈ T) (hv : ¬ 44 ∈ v)
    (hvne : pyLower (pyStrip v) ≠ [])
    (htne : resolveType T ≠ [])
    (h1 : resolveType T ≠ pl "DOMAIN-SET") (h2 : resolveType T ≠ pl "RULE-SET")
    (h3 : resolveType T ≠ pl "URL-REGEX") :
    handle_standard_format (T ++ 44 :: v) = some (resolveType T ++ 44 :: pyLower (pyStrip v)) := by
  unfold handle_standard_format
  rw [splitOnChar_append hT, splitOnChar_of_not_mem hv]
  dsimp only
  rw [if_neg (by simp [htne, hvne]), if_neg (by simp [h1, h2, h3])]

/-- C2, amended.  The explicit decoder performs no supported-set check: for
every payload `T,v` with comma-free halves, it rejects only when the resolved
type is empty, the value is empty, or the resolved type is `DOMAIN-SET`,
`RULE-SET` or `URL-REGEX`; any other type — including ones outside the ten
supported types, such as `FOOBAR` — is emitted as-is. -/
theorem C2_amended (T v : PyStr) (hT : ¬ 44 ∈ T) (hv : ¬ 44 ∈ v)
    (hvne : pyLower (pyStrip v) ≠ [])
    (htne : resolveType T ≠ [])
    (h1 : resolveType T ≠ pl "DOMAIN-SET") (h2 : resolveType T ≠ pl "RULE-SET")
    (h3 : resolveType T ≠ pl "URL-REGEX") :
    handle_standard_format (T ++ 44 :: v) = some (resolveType T ++ 44 :: pyLower (pyStrip v)) :=
  handle_standard_append hT hv hvne htne h1 h2 h3

/-- C2, witness: the amended theorem applied to the unsupported type `FOOBAR`. -/
theorem C2_witness :
    handle_standard_format (pl "FOOBAR" ++ 44 :: pl "x") =
      some (resolveType (pl "FOOBAR") ++ 44 :: pyLower (pyStrip (pl "x"))) :=
  C2_amended (pl "FOOBAR") (pl "x") (by decide) (by decide) (by decide) (by decide)
    (by decide) (by decide) (by decide)

/-- C4, amended.  The hosts-file treatment applies exactly to payloads whose
lower-casing starts with the literal prefix `127.0.0.1` or `0.0.0.0`: when
such a payload splits on whitespace into at least two tokens, the inferred
decoder returns `DOMAIN,<last token>`.  Other digit-initial payloads with
internal whitespace are not hosts lines (see the counterexample). -/
theorem C4_amended (s : PyStr)
    (hpre : (List.isPrefixOf (pl "127.0.0.1") (pyLower s) ||
             List.isPrefixOf (pl "0.0.0.0") (pyLower s)) = true)
    (hlen : (splitWs (pyLower s)).length ≥ 2) :
    handle_compatibility_format s =
      some (pl "DOMAIN," ++ pyStrip ((splitWs (pyLower s)).getLastD [])) := by
  unfold handle_compatibility_format scene_hosts
  simp only []
  rw [if_pos hpre, if_pos hlen]
  rfl

/-- C4, witness: the amended theorem applied to the spec's own hosts scenario
`127.0.0.1 ad.tracker.com`, whose last token is `ad.tracker.com`. -/
theorem C4_witness :
    handle_compatibility_format (pl "127.0.0.1 ad.tracker.com") =
      some (pl "DOMAIN," ++
        pyStrip ((splitWs (pyLower (pl "127.0.0.1 ad.tracker.com"))).getLastD [])) ∧
    pl "DOMAIN," ++ pyStrip ((splitWs (pyLower (pl "127.0.0.1 ad.tracker.com"))).getLastD []) =
      pl "DOMAIN,ad.tracker.com" :=
  ⟨C4_amended (pl "127.0.0.1 ad.tracker.com") (by decide) (by decide), by decide⟩

/-- C6, amended.  The inbound synonym table has no `ASN` entry and maps
`PROCESS-NAME` to `USER-AGENT`: for every well-behaved non-empty value `v`
(comma-free, hash-free, whitespace-free), `ASN,v` normalizes to `ASN,v`
unchanged, and `PROCESS-NAME,v` normalizes to `USER-AGENT,v`. -/
theorem C6_amended (v : PyStr) (hv44 : ¬ 44 ∈ v) (hv35 : ¬ 35 ∈ v)
    (hvs : ∀ c ∈ v, pyIsSpace c = false) (hvne : v ≠ []) :
    clean_rule_line (pl "ASN," ++ v) = some (pl "ASN," ++ pyLower v) ∧
    clean_rule_line (pl "PROCESS-NAME," ++ v) = some (pl "USER-AGENT," ++ pyLower v) := by
  have hlv : pyStrip v = v := pyStrip_eq_self hvs
  have hlne : pyLower (pyStrip v) ≠ [] := by
    rw [hlv]
    intro h
    exact hvne (List.map_eq_nil_iff.1 h)
  constructor
  · have hc35 : (pl "ASN," ++ v).contains 35 = false := by
      apply contains_eq_false_of
      intro h
      rcases List.mem_append.1 h with h | h
      · revert h; decide
      · exact hv35 h
    have hsp : pyStrip (pl "ASN," ++ v) = pl "ASN," ++ v := by
      apply pyStrip_eq_self
      intro c hc
      rcases List.mem_append.1 hc with h | h
      · fin_cases h <;> decide
      · exact hvs c h
    rw [show pl "ASN," ++ v = pl "ASN" ++ 44 :: v from rfl] at hc35 hsp ⊢
    rw [clean_rule_line_to_std (by simp) hc35 rfl hsp rfl rfl rfl
      (contains_eq_true_of (by simp))]
    rw [handle_standard_append (by decide) hv44 hlne (by decide) (by decide) (by decide)
      (by decide)]
    rw [hlv]
    rfl
  · have hc35 : (pl "PROCESS-NAME," ++ v).contains 35 = false := by
      apply contains_eq_false_of
      intro h
      rcases List.mem_append.1 h with h | h
      · revert h; decide
      · exact hv35 h
    have hsp : pyStrip (pl "PROCESS-NAME," ++ v) = pl "PROCESS-NAME," ++ v := by
      apply pyStrip_eq_self
      intro c hc
      rcases List.mem_append.1 hc with h | h
      · fin_cases h <;> decide
      · exact hvs c h
    rw [show pl "PROCESS-NAME," ++ v = pl "PROCESS-NAME" ++ 44 :: v from rfl] at hc35 hsp ⊢
    rw [clean_rule_line_to_std (by simp) hc35 rfl hsp rfl rfl rfl
      (contains_eq_true_of (by simp))]
    rw [handle_standard_append (by decide) hv44 hlne (by decide) (by decide) (by decide)
      (by decide)]
    rw [hlv]
    rfl

/-- C6, witness: the amended theorem applied to the value `x`. -/
theorem C6_witness :
    clean_rule_line (pl "ASN," ++ pl "x") = some (pl "ASN," ++ pyLower (pl "x")) ∧
    clean_rule_line (pl "PROCESS-NAME," ++ pl "x") =
      some (pl "USER-AGENT," ++ pyLower (pl "x")) :=
  C6_amended (pl "x") (by decide) (by decide) (by decide) (by decide)
/-- `splitBy` always returns at least one field. -/
theorem splitBy_ne_nil (p : Nat → Bool) (s : PyStr) : splitBy p s ≠ [] := by
  induction s with
  | nil => simp [splitBy]
  | cons c cs ih =>
    rw [splitBy]
    split
    · next heq => exact absurd heq ih
    · next g gs heq => split <;> simp

/-- Characters of a `splitBy` field come from the original string. -/
theorem mem_of_mem_splitBy {p : Nat → Bool} {s g : PyStr} {a : Nat}
    (hg : g ∈ splitBy p s) (ha : a ∈ g) : a ∈ s := by
  induction s generalizing g with
  | nil =>
    simp [splitBy] at hg
    subst hg
    exact absurd ha (List.not_mem_nil a)
  | cons c cs ih =>
    rw [splitBy] at hg
    revert hg
    split
    · next heq => exact absurd heq (splitBy_ne_nil p cs)
    · next g0 gs heq =>
      intro hg
      by_cases hc : p c
      · rw [if_pos hc] at hg
        rcases List.mem_cons.1 hg with h1 | h1
        · subst h1; exact absurd ha (List.not_mem_nil a)
        · exact List.mem_cons_of_mem _ (ih (heq ▸ h1) ha)
      · rw [if_neg hc] at hg
        rcases List.mem_cons.1 hg with h1 | h1
        · subst h1
          rcases List.mem_cons.1 ha with he | hm
          · exact he ▸ List.mem_cons_self c cs
          · exact List.mem_cons_of_mem _ (ih (heq ▸ List.mem_cons_self g0 gs) hm)
        · exact List.mem_cons_of_mem _ (ih (heq ▸ List.mem_cons_of_mem _ h1) ha)

/-- No character of a `splitBy` field satisfies the splitting predicate. -/
theorem splitBy_pred_false {p : Nat → Bool} {s g : PyStr} {a : Nat}
    (hg : g ∈ splitBy p s) (ha : a ∈ g) : p a = false := by
  induction s generalizing g with
  | nil =>
    simp [splitBy] at hg
    subst hg
    exact absurd ha (List.not_mem_nil a)
  | cons c cs ih =>
    rw [splitBy] at hg
    revert hg
    split
    · next heq => exact absurd heq (splitBy_ne_nil p cs)
    · next g0 gs heq =>
      intro hg
      by_cases hc : p c
      · rw [if_pos hc] at hg
        rcases List.mem_cons.1 hg with h1 | h1
        · subst h1; exact absurd ha (List.not_mem_nil a)
        · exact ih (heq ▸ h1) ha
      · rw [if_neg hc] at hg
        rcases List.mem_cons.1 hg with h1 | h1
        · subst h1
          rcases List.mem_cons.1 ha with he | hm
          · subst he; simpa using hc
          · exact ih (heq ▸ List.mem_cons_self g0 gs) hm
        · exact ih (heq ▸ List.mem_cons_of_mem _ h1) ha

/-- The last element (with default) of a non-empty list is a member. -/
theorem getLastD_mem : ∀ {l : List PyStr} (d : PyStr), l ≠ [] → l.getLastD d ∈ l
  | [], _, h => absurd rfl h
  | [a], d, _ => by simp [List.getLastD_cons]
  | a :: b :: u, d, _ => by
    rw [List.getLastD_cons]
    exact List.mem_cons_of_mem _ (getLastD_mem a (by simp))

/-- A successful association-list lookup returns one of the stored values. -/
theorem lookup_mem_values {k v : PyStr} {l : List (PyStr × PyStr)}
    (h : List.lookup k l = some v) : v ∈ l.map Prod.snd := by
  induction l with
  | nil => simp [List.lookup] at h
  | cons e t ih =>
    rw [List.lookup] at h
    revert h
    split
    · intro h
      injection h with h
      simp [h.symm]
    · intro h
      simp [ih h]

/-! ## Claim C10: shape of every canonical rule -/

/-- A well-formed canonical rule: `T ++ "," ++ V` with non-empty comma-free
halves and no ASCII lowercase letter in the type half. -/
def CanonicalShape (c : PyStr) : Prop :=
  ∃ T V, c = T ++ 44 :: V ∧ T ≠ [] ∧ V ≠ [] ∧ ¬ 44 ∈ T ∧ ¬ 44 ∈ V ∧
    ∀ ch ∈ T, ¬ (97 ≤ ch ∧ ch ≤ 122)

/-- Characters surviving `beforeFirst` come from the original string. -/
theorem mem_beforeFirst {sep : Nat} {s : PyStr} {a : Nat} (h : a ∈ beforeFirst sep s) : a ∈ s :=
  (List.takeWhile_sublist _).mem h

/-- Characters surviving an optional `beforeFirst` truncation come from the
original string. -/
theorem mem_ite_beforeFirst {cond : Prop} [Decidable cond] {sep : Nat} {x : PyStr} {a : Nat}
    (h : a ∈ (if cond then beforeFirst sep x else x)) : a ∈ x := by
  split at h
  · exact mem_beforeFirst h
  · exact h

/-- The bare-domain fallback emits a well-formed canonical rule. -/
theorem scene_domain_shape {ll c : PyStr} (hll : ¬ 44 ∈ ll)
    (h : scene_domain ll = some c) : CanonicalShape c := by
  unfold scene_domain at h
  split at h
  · next hc =>
    injection h with h
    simp only [Bool.and_eq_true] at hc
    have h46 : (46 : Nat) ∈ ll := List.elem_iff.1 hc.1.1
    exact ⟨pl "DOMAIN-SUFFIX", ll, h.symm, by decide, List.ne_nil_of_mem h46, by decide, hll,
      by decide⟩
  · exact absurd h (by simp)

/-- The IP scene emits a well-formed canonical rule. -/
theorem scene_ip_shape {ll c : PyStr} (hll : ¬ 44 ∈ ll)
    (h : scene_ip ll = some c) : CanonicalShape c := by
  unfold scene_ip at h
  revert h
  split
  · intro h; exact absurd h (by simp)
  · next c0 t =>
    intro h
    split at h
    · split at h
      · split at h
        · injection h with h
          exact ⟨pl "IP-CIDR6", c0 :: t, h.symm, by decide, by simp, by decide, hll, by decide⟩
        · injection h with h
          exact ⟨pl "IP-CIDR", c0 :: t, h.symm, by decide, by simp, by decide, hll, by decide⟩
      · exact absurd h (by simp)
    · exact absurd h (by simp)

/-- The dot-shorthand scene emits a well-formed canonical rule. -/
theorem scene_dot_shape {ll c : PyStr} (hll : ¬ 44 ∈ ll)
    (h : scene_dot ll = some c) : CanonicalShape c := by
  unfold scene_dot at h
  split at h
  · dsimp only at h
    split at h
    · next hne =>
      injection h with h
      refine ⟨pl "DOMAIN-SUFFIX", pyStrip (ll.dropWhile (fun c => c = 46)), h.symm, by decide,
        hne, by decide, ?_, by decide⟩
      intro hm
      exact hll ((List.dropWhile_sublist _).mem (mem_pyStrip hm))
    · exact absurd h (by simp)
  · exact absurd h (by simp)

/-- Reading off the final non-emptiness guard of a scene. -/
theorem guard_some_shape {D V c : PyStr}
    (h : (if V ≠ [] then some (D ++ V) else none) = some c) : V ≠ [] ∧ c = D ++ V := by
  split at h
  · next hne => exact ⟨hne, (Option.some.inj h).symm⟩
  · cases h

/-- The AdBlock scene emits a well-formed canonical rule. -/
theorem scene_adblock_shape {ll c : PyStr} (hll : ¬ 44 ∈ ll)
    (h : scene_adblock ll = some c) : CanonicalShape c := by
  unfold scene_adblock at h
  split at h
  · dsimp only at h
    obtain ⟨hne, hc⟩ := guard_some_shape h
    refine ⟨pl "DOMAIN-SUFFIX", _, hc, by decide, hne, by decide, ?_, by decide⟩
    intro hm
    have h1 := mem_pyStrip hm
    have h2 := mem_ite_beforeFirst h1
    have h3 := mem_ite_beforeFirst h2
    exact hll ((List.drop_sublist _ _).mem h3)
  · exact absurd h (by simp)

/-- The hosts scene emits a well-formed canonical rule. -/
theorem scene_hosts_shape {ll c : PyStr} (hll : ¬ 44 ∈ ll)
    (h : scene_hosts ll = some c) : CanonicalShape c := by
  unfold scene_hosts at h
  split at h
  · dsimp only at h
    split at h
    · next hlen =>
      injection h with h
      have hpne : splitWs ll ≠ [] := by
        intro h0
        rw [h0] at hlen
        simp at hlen
      have hgmem : (splitWs ll).getLastD [] ∈ splitWs ll := getLastD_mem _ hpne
      have hgsb : (splitWs ll).getLastD [] ∈ splitBy pyIsSpace ll ∧
          (splitWs ll).getLastD [] ≠ [] := by
        have := List.mem_filter.1 hgmem
        exact ⟨this.1, by simpa using this.2⟩
      have hnos : ∀ a ∈ (splitWs ll).getLastD [], pyIsSpace a = false :=
        fun a ha => splitBy_pred_false hgsb.1 ha
      refine ⟨pl "DOMAIN", pyStrip ((splitWs ll).getLastD []), h.symm, by decide, ?_, by decide,
        ?_, by decide⟩
      · rw [pyStrip_eq_self hnos]
        exact hgsb.2
      · intro hm
        exact hll (mem_of_mem_splitBy hgsb.1 (mem_pyStrip hm))
    · exact absurd h (by simp)
  · exact absurd h (by simp)

/-- The resolved type of the explicit decoder is comma-free and contains no
ASCII lowercase letter. -/
theorem resolveType_shape {p0 : PyStr} (hp0 : ¬ 44 ∈ p0) :
    ¬ 44 ∈ resolveType p0 ∧ ∀ ch ∈ resolveType p0, ¬ (97 ≤ ch ∧ ch ≤ 122) := by
  unfold resolveType
  dsimp only
  have hraw44 : ¬ 44 ∈ pyUpper (pyStrip p0) :=
    not_mem_pyUpper (fun hm => hp0 (mem_pyStrip hm))
  have hrawlc : ∀ ch ∈ pyUpper (pyStrip p0), ¬ (97 ≤ ch ∧ ch ≤ 122) := by
    intro ch hm
    rcases List.mem_map.1 hm with ⟨c0, _, he⟩
    exact he ▸ pyUpperChar_not_lower c0
  by_cases hf : pyUpper (pyStrip p0) = pl "FULL"
  · rw [if_pos hf]
    decide
  · rw [if_neg hf]
    cases hlk : List.lookup (pyUpper (pyStrip p0)) TYPE_MAPPING with
    | none => simp only [Option.getD_none]; exact ⟨hraw44, hrawlc⟩
    | some v =>
      have hv := lookup_mem_values hlk
      simp only [Option.getD_some]
      fin_cases hv <;> decide

/-- The explicit decoder only emits well-formed canonical rules. -/
theorem std_shape {l c : PyStr} (h : handle_standard_format l = some c) : CanonicalShape c := by
  unfold handle_standard_format at h
  revert h
  split
  · next p0 p1 rest heq =>
    intro h
    dsimp only at h
    split at h
    · cases h
    · split at h
      · cases h
      · next hcond _ =>
        have hc := (Option.some.inj h).symm
        have hp0 : ¬ 44 ∈ p0 :=
          not_mem_of_mem_splitOnChar (heq ▸ List.mem_cons_self p0 (p1 :: rest))
        have hp1 : ¬ 44 ∈ p1 :=
          not_mem_of_mem_splitOnChar
            (heq ▸ List.mem_cons_of_mem p0 (List.mem_cons_self p1 rest))
        push_neg at hcond
        obtain ⟨hr, hlc⟩ := resolveType_shape hp0
        exact ⟨resolveType p0, pyLower (pyStrip p1), hc, hcond.1, hcond.2, hr,
          not_mem_pyLower (fun hm => hp1 (mem_pyStrip hm)), hlc⟩
  · intro h; cases h

/-- The inferred decoder only emits well-formed canonical rules (on the
comma-free payloads it is given). -/
theorem compat_shape {l c : PyStr} (hl : ¬ 44 ∈ l)
    (h : handle_compatibility_format l = some c) : CanonicalShape c := by
  unfold handle_compatibility_format at h
  dsimp only at h
  have hll : ¬ 44 ∈ pyLower l := not_mem_pyLower hl
  cases h1 : scene_hosts (pyLower l) with
  | some c1 =>
    rw [h1] at h
    simp only [Option.some_orElse] at h
    exact scene_hosts_shape hll (h1.trans h)
  | none =>
    rw [h1, Option.none_orElse] at h
    cases h2 : scene_adblock (pyLower l) with
    | some c2 =>
      rw [h2] at h
      simp only [Option.some_orElse] at h
      exact scene_adblock_shape hll (h2.trans h)
    | none =>
      rw [h2, Option.none_orElse] at h
      cases h3 : scene_dot (pyLower l) with
      | some c3 =>
        rw [h3] at h
        simp only [Option.some_orElse] at h
        exact scene_dot_shape hll (h3.trans h)
      | none =>
        rw [h3, Option.none_orElse] at h
        cases h4 : scene_ip (pyLower l) with
        | some c4 =>
          rw [h4] at h
          simp only [Option.some_orElse] at h
          exact scene_ip_shape hll (h4.trans h)
        | none =>
          rw [h4, Option.none_orElse] at h
          exact scene_domain_shape hll h

/-- `clean_rule_line` only emits well-formed canonical rules. -/
theorem clean_shape {line c : PyStr} (h : clean_rule_line line = some c) : CanonicalShape c := by
  unfold clean_rule_line at h
  by_cases c1 : line = []
  · rw [if_pos c1] at h; cases h
  · rw [if_neg c1] at h
    dsimp only at h
    by_cases c2 : List.isPrefixOf (pl "!")
        (pyStrip (if line.contains 35 = true then beforeFirst 35 line else line)) = true
    · rw [if_pos c2] at h; cases h
    · rw [if_neg c2] at h
      by_cases c3 : pyStrip (if line.contains 35 = true then beforeFirst 35 line else line) = []
      · rw [if_pos c3] at h; cases h
      · rw [if_neg c3] at h
        by_cases c4 : (List.isPrefixOf (pl "##")
              (pyStrip (if line.contains 35 = true then beforeFirst 35 line else line)) ||
            List.isPrefixOf (pl "#@#")
              (pyStrip (if line.contains 35 = true then beforeFirst 35 line else line))) = true
        · rw [if_pos c4] at h; cases h
        · rw [if_neg c4] at h
          by_cases c5 : (if List.isPrefixOf (pl "- ")
                  (pyStrip (if line.contains 35 = true then beforeFirst 35 line else line)) = true
                then pyStrip ((pyStrip
                  (if line.contains 35 = true then beforeFirst 35 line else line)).drop 2)
                else pyStrip
                  (if line.contains 35 = true then beforeFirst 35 line else line)).contains 44
              = true
          · rw [if_pos c5] at h
            exact std_shape h
          · rw [if_neg c5] at h
            exact compat_shape (fun hm => c5 (contains_eq_true_of hm)) h

/-- C10.  Every non-void result of `clean_rule_line` contains exactly one
comma, its type segment (before the comma) is non-empty and has no ASCII
lowercase letter, and its value segment (after the comma) is non-empty, so
every downstream encoder's split on the first comma is well-defined. -/
theorem C10_theorem (line c : PyStr) (h : clean_rule_line line = some c) :
    List.count 44 c = 1 ∧
    beforeFirst 44 c ≠ [] ∧
    (∀ ch ∈ beforeFirst 44 c, ¬ (97 ≤ ch ∧ ch ≤ 122)) ∧
    afterFirst 44 c ≠ [] := by
  obtain ⟨T, V, hc, hTne, hVne, hT44, hV44, hTlc⟩ := clean_shape h
  subst hc
  refine ⟨count_comma_one hT44 hV44, ?_, ?_, ?_⟩
  · rw [beforeFirst_append hT44]; exact hTne
  · rw [beforeFirst_append hT44]; exact hTlc
  · rw [afterFirst_append hT44]; exact hVne

/-- C10, witness: the shape facts evaluated at `DOMAIN,example.com`. -/
theorem C10_witness :
    List.count 44 (pl "DOMAIN,example.com") = 1 ∧
    beforeFirst 44 (pl "DOMAIN,example.com") ≠ [] ∧
    (∀ ch ∈ beforeFirst 44 (pl "DOMAIN,example.com"), ¬ (97 ≤ ch ∧ ch ≤ 122)) ∧
    afterFirst 44 (pl "DOMAIN,example.com") ≠ [] :=
  C10_theorem (pl "DOMAIN,example.com") (pl "DOMAIN,example.com") (by decide)

/-! ## The sort order of the aggregation engine -/

/-- Lexicographic string comparison is total. -/
theorem pstrLe_total : ∀ a b : PyStr, pstrLe a b = true ∨ pstrLe b a = true
  | [], _ => Or.inl rfl
  | _ :: _, [] => Or.inr rfl
  | a :: as, b :: bs => by
    rcases Nat.lt_trichotomy a b with h | h | h
    · left; rw [pstrLe]; simp [h]
    · subst h
      rcases pstrLe_total as bs with ih | ih
      · left; rw [pstrLe]; simp [ih]
      · right; rw [pstrLe]; simp [ih]
    · right; rw [pstrLe]; simp [h]

/-- Lexicographic string comparison is transitive. -/
theorem pstrLe_trans : ∀ {a b c : PyStr},
    pstrLe a b = true → pstrLe b c = true → pstrLe a c = true
  | [], _, _, _, _ => rfl
  | a :: as, [], _, hab, _ => by rw [pstrLe] at hab; cases hab
  | a :: as, b :: bs, [], _, hbc => by rw [pstrLe] at hbc; cases hbc
  | a :: as, b :: bs, c :: cs, hab, hbc => by
    rw [pstrLe] at hab hbc ⊢
    by_cases h1 : a < b
    · by_cases h2 : b < c
      · simp [Nat.lt_trans h1 h2]
      · simp only [if_neg h2] at hbc
        by_cases h3 : b = c
        · subst h3; simp [h1]
        · simp [h3] at hbc
    · simp only [if_neg h1] at hab
      by_cases h3 : a = b
      · subst h3
        simp only [if_pos rfl] at hab
        by_cases h2 : a < c
        · simp [h2]
        · simp only [if_neg h2] at hbc
          by_cases h4 : a = c
          · subst h4
            simp only [if_pos rfl] at hbc
            rw [if_neg (Nat.lt_irrefl a), if_pos rfl]
            exact pstrLe_trans hab hbc
          · simp [h4] at hbc
      · simp [h3] at hab

instance : IsTotal PyStr RuleLe where
  total a b := by
    unfold RuleLe keyLe
    dsimp only
    rcases Nat.lt_trichotomy (get_sort_key a).1 (get_sort_key b).1 with h | h | h
    · left; simp [h]
    · rcases pstrLe_total (get_sort_key a).2 (get_sort_key b).2 with h2 | h2
      · left; simp [h, h2, Nat.lt_irrefl]
      · right; simp [h, h2, Nat.lt_irrefl]
    · right; simp [h]

instance : IsTrans PyStr RuleLe where
  trans a b c hab hbc := by
    unfold RuleLe keyLe at hab hbc ⊢
    dsimp only at hab hbc ⊢
    by_cases h1 : (get_sort_key a).1 < (get_sort_key b).1
    · by_cases h2 : (get_sort_key b).1 < (get_sort_key c).1
      · simp [Nat.lt_trans h1 h2]
      · simp only [if_neg h2] at hbc
        by_cases h3 : (get_sort_key b).1 = (get_sort_key c).1
        · simp [h3 ▸ h1]
        · simp [h3] at hbc
    · simp only [if_neg h1] at hab
      by_cases h3 : (get_sort_key a).1 = (get_sort_key b).1
      · simp only [if_pos h3] at hab
        by_cases h2 : (get_sort_key b).1 < (get_sort_key c).1
        · simp [h3 ▸ h2]
        · simp only [if_neg h2] at hbc
          by_cases h4 : (get_sort_key b).1 = (get_sort_key c).1
          · simp only [if_pos h4] at hbc
            have he : (get_sort_key a).1 = (get_sort_key c).1 := h3.trans h4
            rw [if_neg (he ▸ h3 ▸ h1), if_pos he]
            exact pstrLe_trans hab hbc
          · simp [h4] at hbc
      · simp [h3] at hab

/-! ## Aggregation-engine invariants -/

/-- `addClean` keeps existing members. -/
theorem mem_addClean {acc : List PyStr} (item : PyStr) {x : PyStr} (h : x ∈ acc) :
    x ∈ addClean acc item := by
  unfold addClean
  split
  · split
    · exact h
    · exact List.mem_append_left _ h
  · exact h

/-- Folding `addClean` keeps existing members. -/
theorem mem_foldl_addClean {items acc : List PyStr} {x : PyStr} (h : x ∈ acc) :
    x ∈ items.foldl addClean acc := by
  induction items generalizing acc with
  | nil => exact h
  | cons a t ih => exact ih (mem_addClean a h)

/-- A successfully cleaned item always lands in the folded set. -/
theorem mem_foldl_addClean_of {items acc : List PyStr} {r c : PyStr}
    (hr : r ∈ items) (hc : clean_rule_line r = some c) : c ∈ items.foldl addClean acc := by
  induction items generalizing acc with
  | nil => exact absurd hr (List.not_mem_nil r)
  | cons a t ih =>
    rcases List.mem_cons.1 hr with he | hm
    · subst he
      rw [List.foldl_cons]
      apply mem_foldl_addClean
      unfold addClean
      rw [hc]
      dsimp only
      split
      · assumption
      · exact List.mem_append_right _ (List.mem_cons_self c [])
    · rw [List.foldl_cons]
      exact ih hm

/-- A successfully cleaned item of the source list is in the built set. -/
theorem mem_buildCleanSet_of {items : List PyStr} {r c : PyStr}
    (hr : r ∈ items) (hc : clean_rule_line r = some c) : c ∈ buildCleanSet items :=
  mem_foldl_addClean_of hr hc

/-- `addClean` preserves distinctness. -/
theorem addClean_nodup {acc : List PyStr} (item : PyStr) (h : acc.Nodup) :
    (addClean acc item).Nodup := by
  unfold addClean
  split
  · split
    · exact h
    · next hnm =>
      rw [List.nodup_append]
      exact ⟨h, List.nodup_singleton _,
        fun a ha ha2 => hnm ((List.mem_singleton.1 ha2) ▸ ha)⟩
  · exact h

/-- The built rule set has no duplicates (it models a Python `set`). -/
theorem buildCleanSet_nodup (items : List PyStr) : (buildCleanSet items).Nodup := by
  unfold buildCleanSet
  have : ∀ (l : List PyStr) (acc : List PyStr), acc.Nodup → (l.foldl addClean acc).Nodup := by
    intro l
    induction l with
    | nil => exact fun acc h => h
    | cons a t ih => exact fun acc h => ih _ (addClean_nodup a h)
  exact this items [] List.nodup_nil

/-- The invariant maintained by the main loop of `process_rules`. -/
def LoopInv (vip ign ex inc : List PyStr) (st : LoopSt) : Prop :=
  st.common.Nodup ∧
  ∀ x ∈ st.common, x ∉ vip ∧ isFilteredLine ign ex inc x = false

/-- One loop step preserves the invariant. -/
theorem stepLine_inv {vip ign ex inc : List PyStr} {st : LoopSt} (line : PyStr)
    (h : LoopInv vip ign ex inc st) :
    LoopInv vip ign ex inc (stepLine vip ign ex inc st line) := by
  unfold stepLine
  split
  · exact h
  · next cl hcl =>
    split
    · exact h
    · next hvip =>
      split
      · exact h
      · next hcom =>
        split
        · exact h
        · next hfil =>
          constructor
          · rw [List.nodup_append]
            exact ⟨h.1, List.nodup_singleton _,
              fun a ha ha2 => hcom ((List.mem_singleton.1 ha2) ▸ ha)⟩
          · intro x hx
            rcases List.mem_append.1 hx with hx | hx
            · exact h.2 x hx
            · rw [List.mem_singleton.1 hx]
              exact ⟨hvip, by simpa using hfil⟩

/-- The whole loop preserves the invariant. -/
theorem foldl_stepLine_inv {vip ign ex inc : List PyStr} (lines : List PyStr) {st : LoopSt}
    (h : LoopInv vip ign ex inc st) :
    LoopInv vip ign ex inc (lines.foldl (stepLine vip ign ex inc) st) := by
  induction lines generalizing st with
  | nil => exact h
  | cons a t ih => exact ih (stepLine_inv a h)

/-- C8.  For every raw-line sequence and every `FilterConfig`, the aggregated
ordered output contains no two equal canonical rules: the VIP part and the
common part are each duplicate-free and mutually disjoint. -/
theorem C8_theorem (cfg : FilterConfig) (lines : List PyStr) :
    ((process_rules cfg lines).1).Nodup := by
  unfold process_rules
  dsimp only
  have hinv := @foldl_stepLine_inv (buildCleanSet cfg.extra_rules)
    (buildCleanSet cfg.ignored_rules) (cfg.exclude_keywords.map pyLower)
    (cfg.include_keywords.map pyLower) lines ⟨[], 0, 0, 0, 0⟩
    ⟨List.nodup_nil, by simp⟩
  apply List.Nodup.append
  · exact ((List.perm_insertionSort RuleLe _).nodup_iff).2 (buildCleanSet_nodup _)
  · exact ((List.perm_insertionSort RuleLe _).nodup_iff).2 hinv.1
  · intro a ha ha2
    have h1 : a ∈ buildCleanSet cfg.extra_rules :=
      (List.perm_insertionSort RuleLe _).subset ha
    have h2 := (hinv.2 a ((List.perm_insertionSort RuleLe _).subset ha2)).1
    exact h2 h1

/-- The two `BEq (List Nat)` instances in scope count identically. -/
theorem count_beq_eq (a : List Nat) (l : List (List Nat)) :
    @List.count _ List.instBEq a l = @List.count _ instBEqOfDecidableEq a l := by
  induction l with
  | nil => rfl
  | cons b t ih => simp [List.count_cons, ih]

/-- C7.  Every VIP rule of `extra_rules` that normalizes successfully appears
in the aggregated ordered list exactly once, and before every rule that is not
in the VIP set — the ignored/exclude/include filters never remove it, and a
verbatim duplicate in the raw lines cannot duplicate it. -/
theorem C7_theorem (cfg : FilterConfig) (lines : List PyStr) (r c : PyStr)
    (hr : r ∈ cfg.extra_rules) (hc : clean_rule_line r = some c) :
    ((process_rules cfg lines).1).count c = 1 ∧
    ∀ i j : Fin ((process_rules cfg lines).1).length,
      ((process_rules cfg lines).1).get i = c →
      ¬ ((process_rules cfg lines).1).get j ∈ buildCleanSet cfg.extra_rules →
      (i : Nat) < (j : Nat) := by
  unfold process_rules
  dsimp only
  have hcvip : c ∈ buildCleanSet cfg.extra_rules := mem_buildCleanSet_of hr hc
  have hinv := @foldl_stepLine_inv (buildCleanSet cfg.extra_rules)
    (buildCleanSet cfg.ignored_rules) (cfg.exclude_keywords.map pyLower)
    (cfg.include_keywords.map pyLower) lines ⟨[], 0, 0, 0, 0⟩
    ⟨List.nodup_nil, by simp⟩
  have hpermV : List.Perm (sortRules (buildCleanSet cfg.extra_rules))
      (buildCleanSet cfg.extra_rules) :=
    List.perm_insertionSort RuleLe _
  have hpermC : List.Perm (sortRules (lines.foldl (stepLine (buildCleanSet cfg.extra_rules)
        (buildCleanSet cfg.ignored_rules) (cfg.exclude_keywords.map pyLower)
        (cfg.include_keywords.map pyLower)) ⟨[], 0, 0, 0, 0⟩).common)
      ((lines.foldl (stepLine (buildCleanSet cfg.extra_rules) (buildCleanSet cfg.ignored_rules)
        (cfg.exclude_keywords.map pyLower) (cfg.include_keywords.map pyLower))
        ⟨[], 0, 0, 0, 0⟩).common) :=
    List.perm_insertionSort RuleLe _
  have hcnotcom : c ∉ sortRules (lines.foldl (stepLine (buildCleanSet cfg.extra_rules)
      (buildCleanSet cfg.ignored_rules) (cfg.exclude_keywords.map pyLower)
      (cfg.include_keywords.map pyLower)) ⟨[], 0, 0, 0, 0⟩).common := by
    intro hm
    exact (hinv.2 c (hpermC.subset hm)).1 hcvip
  constructor
  · rw [List.count_append, List.count_eq_zero.2 hcnotcom, count_beq_eq]
    rw [hpermV.count_eq, List.count_eq_one_of_mem (buildCleanSet_nodup _) hcvip]
  · intro i j hi hj
    have hjlen : (sortRules (buildCleanSet cfg.extra_rules)).length ≤ (j : Nat) := by
      by_contra hlt
      push_neg at hlt
      apply hj
      have := List.get_eq_getElem _ j
      rw [this, List.getElem_append_left hlt] at hj
      exact absurd (hpermV.subset (List.getElem_mem hlt)) hj
    have hilen : (i : Nat) < (sortRules (buildCleanSet cfg.extra_rules)).length := by
      by_contra hge
      push_neg at hge
      apply hcnotcom
      rw [List.get_eq_getElem, List.getElem_append_right hge] at hi
      exact hi ▸ List.getElem_mem _
    exact Nat.lt_of_lt_of_le hilen hjlen

/-- The configuration used by the C7 witness. -/
def c7cfg : FilterConfig := ⟨[], [], [], [pl "DOMAIN,a.com"]⟩

/-- C7, witness: one VIP rule plus one downloaded rule. -/
theorem C7_witness :
    ((process_rules c7cfg [pl "DOMAIN-SUFFIX,b.com"]).1).count (pl "DOMAIN,a.com") = 1 ∧
    ∀ i j : Fin ((process_rules c7cfg [pl "DOMAIN-SUFFIX,b.com"]).1).length,
      ((process_rules c7cfg [pl "DOMAIN-SUFFIX,b.com"]).1).get i = pl "DOMAIN,a.com" →
      ¬ ((process_rules c7cfg [pl "DOMAIN-SUFFIX,b.com"]).1).get j ∈
          buildCleanSet c7cfg.extra_rules →
      (i : Nat) < (j : Nat) :=
  C7_theorem c7cfg [pl "DOMAIN-SUFFIX,b.com"] (pl "DOMAIN,a.com") (pl "DOMAIN,a.com")
    (by decide) (by decide)

/-- Lines that clean to themselves and sit in the VIP set only bump the
VIP-duplicate counter. -/
theorem foldl_stepLine_vip {vip ign ex inc : List PyStr} (l : List PyStr) (st : LoopSt)
    (h : ∀ v ∈ l, clean_rule_line v = some v ∧ v ∈ vip) :
    l.foldl (stepLine vip ign ex inc) st = { st with dup_vip := st.dup_vip + l.length } := by
  induction l generalizing st with
  | nil => simp
  | cons a t ih =>
    rw [List.foldl_cons]
    have ha := h a (List.mem_cons_self a t)
    have hstep : stepLine vip ign ex inc st a = { st with dup_vip := st.dup_vip + 1 } := by
      unfold stepLine
      rw [ha.1]
      dsimp only
      rw [if_pos ha.2]
    rw [hstep, ih _ (fun v hv => h v (List.mem_cons_of_mem a hv))]
    simp [List.length_cons]
    omega

/-- Distinct lines that clean to themselves, are not VIP and pass the filters
are appended to the common set in order, touching no counter. -/
theorem foldl_stepLine_fresh {vip ign ex inc : List PyStr} (l : List PyStr) (st : LoopSt)
    (hnd : l.Nodup)
    (h : ∀ s ∈ l, clean_rule_line s = some s ∧ s ∉ vip ∧ isFilteredLine ign ex inc s = false)
    (hdisj : ∀ s ∈ l, s ∉ st.common) :
    l.foldl (stepLine vip ign ex inc) st = { st with common := st.common ++ l } := by
  induction l generalizing st with
  | nil => simp
  | cons a t ih =>
    rw [List.foldl_cons]
    have ha := h a (List.mem_cons_self a t)
    have hstep : stepLine vip ign ex inc st a = { st with common := st.common ++ [a] } := by
      unfold stepLine
      rw [ha.1]
      dsimp only
      rw [if_neg ha.2.1, if_neg (hdisj a (List.mem_cons_self a t))]
      simp [ha.2.2]
    rw [hstep, ih _ (List.Nodup.of_cons hnd) (fun s hs => h s (List.mem_cons_of_mem a hs))]
    · simp
    · intro s hs hm
      rcases List.mem_append.1 hm with hm | hm
      · exact hdisj s (List.mem_cons_of_mem a hs) hm
      · rw [List.mem_singleton.1 hm] at hs
        exact (List.nodup_cons.1 hnd).1 hs

/-- `sortRules` sorts. -/
theorem sortRules_sorted (l : List PyStr) : List.Sorted RuleLe (sortRules l) :=
  List.sorted_insertionSort RuleLe l

/-- `sortRules` is the identity on sorted lists. -/
theorem sortRules_of_sorted {l : List PyStr} (h : List.Sorted RuleLe l) : sortRules l = l :=
  h.insertionSort_eq

/-- C9, amended.  Aggregation is idempotent on its own output up to the
VIP-duplicate counter, provided every emitted line is a fixed point of the
normalizer: re-aggregating the output with the same filters reproduces the
identical ordered list with `invalid = dup_src = filtered = 0`, while
`dup_vip` equals the VIP-set size (the emitted VIP rules re-enter the
VIP-duplicate branch), not 0 as claimed. -/
theorem C9_amended (cfg : FilterConfig) (lines : List PyStr)
    (hfix : ∀ s ∈ (process_rules cfg lines).1, clean_rule_line s = some s) :
    process_rules cfg ((process_rules cfg lines).1) =
      ((process_rules cfg lines).1,
       { source := (process_rules cfg lines).1.length,
         vip := (buildCleanSet cfg.extra_rules).length,
         invalid := 0,
         dup_vip := (buildCleanSet cfg.extra_rules).length,
         dup_src := 0,
         filtered := 0,
         total := (process_rules cfg lines).1.length }) := by
  have hout : (process_rules cfg lines).1 =
      sortRules (buildCleanSet cfg.extra_rules) ++
      sortRules ((lines.foldl (stepLine (buildCleanSet cfg.extra_rules)
        (buildCleanSet cfg.ignored_rules) (cfg.exclude_keywords.map pyLower)
        (cfg.include_keywords.map pyLower)) ⟨[], 0, 0, 0, 0⟩).common) := rfl
  have hinv := @foldl_stepLine_inv (buildCleanSet cfg.extra_rules)
    (buildCleanSet cfg.ignored_rules) (cfg.exclude_keywords.map pyLower)
    (cfg.include_keywords.map pyLower) lines ⟨[], 0, 0, 0, 0⟩
    ⟨List.nodup_nil, by simp⟩
  rw [hout] at hfix ⊢
  have hpermV : List.Perm (sortRules (buildCleanSet cfg.extra_rules))
      (buildCleanSet cfg.extra_rules) := List.perm_insertionSort RuleLe _
  have hpermC : List.Perm (sortRules ((lines.foldl (stepLine (buildCleanSet cfg.extra_rules)
        (buildCleanSet cfg.ignored_rules) (cfg.exclude_keywords.map pyLower)
        (cfg.include_keywords.map pyLower)) ⟨[], 0, 0, 0, 0⟩).common))
      ((lines.foldl (stepLine (buildCleanSet cfg.extra_rules)
        (buildCleanSet cfg.ignored_rules) (cfg.exclude_keywords.map pyLower)
        (cfg.include_keywords.map pyLower)) ⟨[], 0, 0, 0, 0⟩).common) :=
    List.perm_insertionSort RuleLe _
  conv_lhs => unfold process_rules
  dsimp only
  rw [List.foldl_append]
  rw [foldl_stepLine_vip _ _ (fun v hv =>
    ⟨hfix v (List.mem_append_left _ hv), hpermV.subset hv⟩)]
  rw [foldl_stepLine_fresh _ _ (hpermC.nodup_iff.2 hinv.1)
    (fun s hs => ⟨hfix s (List.mem_append_right _ hs),
      (hinv.2 s (hpermC.subset hs)).1, (hinv.2 s (hpermC.subset hs)).2⟩)
    (fun s _ hm => List.not_mem_nil s hm)]
  dsimp only
  rw [List.nil_append]
  rw [sortRules_of_sorted (sortRules_sorted _)]
  rw [Prod.mk.injEq]
  constructor
  · rfl
  · rw [RuleStats.mk.injEq]
    refine ⟨?_, rfl, rfl, ?_, rfl, rfl, ?_⟩
    · rfl
    · rw [Nat.zero_add, hpermV.length_eq]
    · rfl

/-- The configuration used by the C9 witness. -/
def c9wcfg : FilterConfig := ⟨[], [], [], [pl "DOMAIN,a.com"]⟩

/-- The raw lines used by the C9 witness. -/
def c9wlines : List PyStr := [pl "DOMAIN-SUFFIX,b.com", pl "IP-CIDR,1.2.3.0/24"]

/-- C9, witness: the amended idempotence statement at a concrete run. -/
theorem C9_witness :
    process_rules c9wcfg ((process_rules c9wcfg c9wlines).1) =
      ((process_rules c9wcfg c9wlines).1,
       { source := (process_rules c9wcfg c9wlines).1.length,
         vip := (buildCleanSet c9wcfg.extra_rules).length,
         invalid := 0,
         dup_vip := (buildCleanSet c9wcfg.extra_rules).length,
         dup_src := 0,
         filtered := 0,
         total := (process_rules c9wcfg c9wlines).1.length }) :=
  C9_amended c9wcfg c9wlines (by decide)
